import Mathlib

-- Shallow embedding of the WorkersAI Durable Object chat session
-- (WorkersAIDurableObject in the repository), covering:
--   * the tool-call accumulator (the toolCallMap merge loop in handleChat),
--   * the create-generation flow handleChat (user insert, provider stream
--     consumption, per-delta events, stream-end completion event, assistant
--     persistence, updated_at bump, title derivation),
--   * the regeneration flow handleRegenerate (precondition check, stream
--     consumption, in-place content update),
--   * the abortController field lifecycle driven by webSocketMessage.
-- TypeScript optional string fields (undefined) are modelled as the empty
-- string: the source only ever tests them for truthiness (`if (x)`) or
-- defaults them with `|| ""`, so undefined and "" are indistinguishable there.
-- Storage writes and channel sends are recorded in one ordered trace of
-- actions, so ordering claims (persist vs emit) are statable.
-- Cancellation is cooperative, as the spec's concurrency model states: it is
-- modelled as the index of the last delta consumed before the AbortError is
-- observed (the inner catch in the source).  Provider faults other than
-- cancellation on the main stream are not modelled (no claim concerns them);
-- the title sub-call's fault/success outcome is a parameter.

namespace WorkersAI

/-- Role of a stored message; the drizzle schema restricts the role column to
the two values user and assistant. -/
inductive Role where
  | user
  | assistant
deriving DecidableEq

/-- The empty string, named so it can appear after an identifier. -/
def noStr : String := ""

/-- One streamed tool-call fragment, as found on
delta.tool_calls in handleChat: a zero-based index plus optional id, type,
function.name and function.arguments (absent fields modelled as ""). -/
structure ToolCallFrag where
  index : Nat
  id : String
  ctype : String
  name : String
  args : String
deriving DecidableEq

/-- One accumulated tool-call entry, the value type of the source's
toolCallMap (id, type, function.name, function.arguments). -/
structure ToolCallEntry where
  id : String
  ctype : String
  name : String
  args : String
deriving DecidableEq

/-- One streamed completion delta: optional text content plus a list of
tool-call fragments (chunk.choices[0].delta in the source). -/
structure Delta where
  content : String
  tool_calls : List ToolCallFrag
deriving DecidableEq

/-- Outbound channel events (the WebSocketServerMessage frames plus the
ad-hoc error frame sent from the catch blocks). -/
inductive Event where
  | streamResp (eventId conversationId content : String)
  | streamDone (eventId conversationId : String) (fn : Option (String × String))
  | titleUpd (eventId conversationId title : String)
  | errMsg (eventId message : String)
deriving DecidableEq

/-- One observable action of a handler, in execution order: a channel send,
a storage write, or the issuing of a provider call. -/
inductive Act where
  | send (e : Event)
  | insertMessage (conversationId : String) (role : Role) (content : String)
  | updateMessageContent (messageId content : String)
  | touchConversation (conversationId : String)
  | setTitle (conversationId title : String)
  | callProvider
  | callTitleProvider
deriving DecidableEq

/-- The part of a stored conversation row handleChat reads: its title column
(null until title derivation succeeds). -/
structure Conversation where
  title : Option String
deriving DecidableEq

/-- A chat.stream.create command (model and tools fields are opaque to the
control flow modelled here). -/
structure CreateMsg where
  eventId : String
  conversationId : String
  content : String
deriving DecidableEq

/-- A chat.regenerate command. -/
structure RegenMsg where
  eventId : String
  conversationId : String
deriving DecidableEq

/-- A stored message row as read by handleRegenerate (id, role, content). -/
structure StoredMessage where
  id : String
  role : Role
  content : String
deriving DecidableEq

/-- Outcome of the title-derivation sub-call: either the provider call or the
JSON/zod parsing threw (caught by the inner catch), or a title string was
parsed (possibly empty). -/
inductive TitleOutcome where
  | fault
  | parsed (title : String)
deriving DecidableEq

/-- Error text sent from handleChat's outer catch. -/
def internalErrorText : String := "An internal error occurred"

/-- Error text sent when the regenerate precondition fails. -/
def cannotRegenText : String := "Cannot regenerate the last message."

/-- Association-list lookup by tool-call index, modelling toolCallMap.get;
the list preserves JS Map insertion order. -/
def lookupIdx (i : Nat) : List (Nat × ToolCallEntry) → Option ToolCallEntry
  | [] => none
  | (j, e) :: tl => if j = i then some e else lookupIdx i tl

/-- In-place mutation of an existing accumulator entry by one fragment:
overwrite name/id/type when the fragment's value is non-empty, append
argument text (the existingToolCall branch in handleChat). -/
def updateEntry (e : ToolCallEntry) (tc : ToolCallFrag) : ToolCallEntry :=
  { name := if tc.name ≠ "" then tc.name else e.name
    args := if tc.args ≠ "" then e.args ++ tc.args else e.args
    id := if tc.id ≠ "" then tc.id else e.id
    ctype := if tc.ctype ≠ "" then tc.ctype else e.ctype }

/-- Merge one tool-call fragment into the accumulator: update the existing
entry at that index, or create a new one seeded from the fragment (new keys
go to the back, matching JS Map insertion order). -/
def mergeToolCall (m : List (Nat × ToolCallEntry)) (tc : ToolCallFrag) :
    List (Nat × ToolCallEntry) :=
  match lookupIdx tc.index m with
  | some _ => m.map fun p => if p.1 = tc.index then (p.1, updateEntry p.2 tc) else p
  | none => m ++ [(tc.index, { id := tc.id, ctype := tc.ctype, name := tc.name, args := tc.args })]

/-- Merge all tool-call fragments of one delta into the accumulator (the
inner for-of loop over delta.tool_calls). -/
def mergeDelta (m : List (Nat × ToolCallEntry)) (d : Delta) :
    List (Nat × ToolCallEntry) :=
  d.tool_calls.foldl mergeToolCall m

/-- State threaded through handleChat's for-await loop: the accumulated
response text, the tool-call accumulator, and the trace of actions so far. -/
structure LoopState where
  response : String
  toolCallMap : List (Nat × ToolCallEntry)
  trace : List Act
deriving DecidableEq

/-- One iteration of handleChat's for-await loop: forward non-empty text as a
chat.stream.response event and append it to the response; merge the delta's
tool-call fragments; if the accumulator is non-empty and its first entry has
a non-empty name, emit an interim chat.stream.done event carrying that
entry's name and current argument text. -/
def stepDelta (e c : String) (st : LoopState) (d : Delta) : LoopState :=
  let st1 :=
    if d.content ≠ "" then
      { st with
        response := st.response ++ d.content
        trace := st.trace ++ [Act.send (Event.streamResp e c d.content)] }
    else st
  let m := d.tool_calls.foldl mergeToolCall st1.toolCallMap
  let st2 := { st1 with toolCallMap := m }
  match m with
  | [] => st2
  | (_, en) :: _ =>
    if en.name ≠ "" then
      { st2 with trace := st2.trace ++ [Act.send (Event.streamDone e c (some (en.name, en.args)))] }
    else st2

/-- handleChat's for-await loop over the consumed deltas. -/
def chatLoop (e c : String) (st : LoopState) (ds : List Delta) : LoopState :=
  ds.foldl (stepDelta e c) st

/-- The deltas actually consumed: all of them on a natural end, the first k
on a cancellation observed after k deltas (cooperative cancellation between
deltas, per the spec's concurrency model). -/
def consumedOf (deltas : List Delta) (cancelAt : Option Nat) : List Delta :=
  match cancelAt with
  | some k => deltas.take k
  | none => deltas

/-- The create-generation flow handleChat, as a trace of actions.
Parameters: the command, the conversation row found for its id (none models
the conversation-not-found throw into the outer catch), the provider's delta
sequence, the cancellation point, and the title sub-call outcome.  Mirrors
the source order: user insert, provider call, stream loop, stream-end done
event, assistant insert, updated_at bump, then title derivation gated on the
title read at the start of the turn. -/
def handleChat (msg : CreateMsg) (conv : Option Conversation) (deltas : List Delta)
    (cancelAt : Option Nat) (titleOut : TitleOutcome) : List Act :=
  match conv with
  | none => [Act.send (Event.errMsg msg.eventId internalErrorText)]
  | some conversation =>
    let eid := msg.eventId
    let cid := msg.conversationId
    let st := chatLoop eid cid
      { response := noStr
        toolCallMap := []
        trace := [Act.insertMessage cid Role.user msg.content, Act.callProvider] }
      (consumedOf deltas cancelAt)
    let trace := st.trace ++
      [Act.send (Event.streamDone eid cid none),
       Act.insertMessage cid Role.assistant st.response,
       Act.touchConversation cid]
    match conversation.title with
    | some _ => trace
    | none =>
      let trace2 := trace ++ [Act.callTitleProvider]
      match titleOut with
      | TitleOutcome.fault => trace2
      | TitleOutcome.parsed t =>
        if t ≠ "" then
          trace2 ++ [Act.setTitle cid t, Act.send (Event.titleUpd eid cid t)]
        else trace2

/-- One iteration of handleRegenerate's for-await loop: forward non-empty
text and append it to the new response. -/
def regenStep (e c : String) (st : String × List Act) (d : Delta) : String × List Act :=
  if d.content ≠ "" then
    (st.1 ++ d.content, st.2 ++ [Act.send (Event.streamResp e c d.content)])
  else st

/-- The regeneration flow handleRegenerate, as a trace of actions: reject
when the history has fewer than two messages or its last message is not an
assistant turn; otherwise stream, and on a natural end send the stream-end
done event, overwrite the retained last assistant message in place, and bump
updated_at; on cancellation return immediately (the inner catch returns). -/
def handleRegenerate (msg : RegenMsg) (allMessages : List StoredMessage)
    (deltas : List Delta) (cancelAt : Option Nat) : List Act :=
  if allMessages.length < 2 ∨
      ¬ ((allMessages.getLast?).map StoredMessage.role = some Role.assistant) then
    [Act.send (Event.errMsg msg.eventId cannotRegenText)]
  else
    let lastId := ((allMessages.getLast?).map StoredMessage.id).getD noStr
    let st := (consumedOf deltas cancelAt).foldl
      (regenStep msg.eventId msg.conversationId) (noStr, [Act.callProvider])
    match cancelAt with
    | some _ => st.2
    | none =>
      st.2 ++
        [Act.send (Event.streamDone msg.eventId msg.conversationId none),
         Act.updateMessageContent lastId st.1,
         Act.touchConversation msg.conversationId]

/-- The abortController field lifecycle: the current token, a counter for
allocating fresh tokens, and the set of tokens that have been aborted. -/
structure SessionState where
  current : Nat
  nextId : Nat
  aborted : List Nat
deriving DecidableEq

/-- this.abortController = new AbortController(): replace the current token
with a fresh one; the previous token is not aborted. -/
def newAbortController (st : SessionState) : SessionState :=
  { current := st.nextId, nextId := st.nextId + 1, aborted := st.aborted }

/-- this.abortController.abort(): abort the current token. -/
def abortCurrent (st : SessionState) : SessionState :=
  { st with aborted := st.current :: st.aborted }

/-- Inbound client commands as dispatched by webSocketMessage. -/
inductive ClientMsg where
  | create (eventId conversationId content model : String)
  | cancel (eventId conversationId : String)
  | regen (eventId conversationId model : String)
deriving DecidableEq

/-- Effect of one inbound command on the abortController field:
chat.stream.create and chat.regenerate allocate a fresh controller (first
statement of handleChat / handleRegenerate); chat.stream.cancel aborts the
current one, reading no field of the message besides its type. -/
def tokenStep (st : SessionState) (m : ClientMsg) : SessionState :=
  match m with
  | ClientMsg.create _ _ _ _ => newAbortController st
  | ClientMsg.cancel _ _ => abortCurrent st
  | ClientMsg.regen _ _ _ => newAbortController st

/-- Text-accumulation step of one delta (response += content when content is
non-empty). -/
def contentStep (r : String) (d : Delta) : String :=
  if d.content ≠ "" then r ++ d.content else r

/-- Actions emitted while processing one delta, as a function of the
accumulator state before the delta. -/
def deltaActs (e c : String) (m : List (Nat × ToolCallEntry)) (d : Delta) : List Act :=
  (if d.content ≠ "" then [Act.send (Event.streamResp e c d.content)] else []) ++
    (match mergeDelta m d with
     | [] => []
     | (_, en) :: _ =>
       if en.name ≠ "" then [Act.send (Event.streamDone e c (some (en.name, en.args)))]
       else [])

/-- Actions emitted across a list of deltas. -/
def loopActs (e c : String) (m : List (Nat × ToolCallEntry)) : List Delta → List Act
  | [] => []
  | d :: tl => deltaActs e c m d ++ loopActs e c (mergeDelta m d) tl

/-- Response text accumulated across a list of deltas. -/
def loopResp (r : String) (ds : List Delta) : String :=
  ds.foldl contentStep r

/-- Accumulator state after a list of deltas. -/
def loopMap (m : List (Nat × ToolCallEntry)) (ds : List Delta) :
    List (Nat × ToolCallEntry) :=
  ds.foldl mergeDelta m

theorem stepDelta_spec (e c : String) (st : LoopState) (d : Delta) :
    stepDelta e c st d =
      { response := contentStep st.response d
        toolCallMap := mergeDelta st.toolCallMap d
        trace := st.trace ++ deltaActs e c st.toolCallMap d } := by
  unfold stepDelta deltaActs mergeDelta contentStep
  by_cases hc : d.content ≠ ""
  · simp only [if_pos hc]
    rcases hm : d.tool_calls.foldl mergeToolCall st.toolCallMap with _ | ⟨⟨j, en⟩, tl⟩
    · simp [hm]
    · by_cases hn : en.name ≠ ""
      · simp [hm, hn]
      · simp [hm, hn]
  · simp only [if_neg hc]
    rcases hm : d.tool_calls.foldl mergeToolCall st.toolCallMap with _ | ⟨⟨j, en⟩, tl⟩
    · simp [hm]
    · by_cases hn : en.name ≠ ""
      · simp [hm, hn]
      · simp [hm, hn]

theorem chatLoop_spec (e c : String) (ds : List Delta) : ∀ st : LoopState,
    chatLoop e c st ds =
      { response := loopResp st.response ds
        toolCallMap := loopMap st.toolCallMap ds
        trace := st.trace ++ loopActs e c st.toolCallMap ds } := by
  induction ds with
  | nil => intro st; simp [chatLoop, loopResp, loopMap, loopActs]
  | cons d tl ih =>
    intro st
    have h1 : chatLoop e c st (d :: tl) = chatLoop e c (stepDelta e c st d) tl := rfl
    rw [h1, ih, stepDelta_spec]
    simp [loopResp, loopMap, loopActs, List.append_assoc]

/-- Trailing actions of handleChat after the assistant turn is persisted:
the gated title-derivation block. -/
def titleTail (msg : CreateMsg) (cv : Conversation) (titleOut : TitleOutcome) : List Act :=
  match cv.title with
  | some _ => []
  | none =>
    Act.callTitleProvider ::
      (match titleOut with
       | TitleOutcome.fault => []
       | TitleOutcome.parsed t =>
         if t ≠ "" then
           [Act.setTitle msg.conversationId t,
            Act.send (Event.titleUpd msg.eventId msg.conversationId t)]
         else [])

theorem handleChat_some (msg : CreateMsg) (cv : Conversation) (deltas : List Delta)
    (cancelAt : Option Nat) (titleOut : TitleOutcome) :
    handleChat msg (some cv) deltas cancelAt titleOut =
      [Act.insertMessage msg.conversationId Role.user msg.content, Act.callProvider]
        ++ loopActs msg.eventId msg.conversationId [] (consumedOf deltas cancelAt)
        ++ [Act.send (Event.streamDone msg.eventId msg.conversationId none),
            Act.insertMessage msg.conversationId Role.assistant
              (loopResp noStr (consumedOf deltas cancelAt)),
            Act.touchConversation msg.conversationId]
        ++ titleTail msg cv titleOut := by
  simp only [handleChat]
  rw [chatLoop_spec]
  rcases hcv : cv.title with _ | t0
  · rcases titleOut with _ | t
    · simp [titleTail, hcv, loopMap, List.append_assoc]
    · by_cases ht : t ≠ ""
      · simp [titleTail, hcv, ht, loopMap, List.append_assoc]
      · simp [titleTail, hcv, ht, loopMap, List.append_assoc]
  · simp [titleTail, hcv, loopMap, List.append_assoc]

/-- Test for a turn-complete frame: a chat.stream.done event whose
function_call is null. -/
def isDoneNull : Act → Bool
  | Act.send (Event.streamDone _ _ none) => true
  | _ => false

/-- Test for any chat.stream.done frame. -/
def isDoneEvent : Act → Bool
  | Act.send (Event.streamDone _ _ _) => true
  | _ => false

/-- Test for the persistence of a new assistant message. -/
def isAssistantInsert : Act → Bool
  | Act.insertMessage _ Role.assistant _ => true
  | _ => false

/-- Test for any storage mutation. -/
def isMutation : Act → Bool
  | Act.insertMessage _ _ _ => true
  | Act.updateMessageContent _ _ => true
  | Act.touchConversation _ => true
  | Act.setTitle _ _ => true
  | _ => false

/-- Text fragments carried by the chat.stream.response events of a trace, in
order. -/
def respTexts (t : List Act) : List String :=
  t.filterMap fun a =>
    match a with
    | Act.send (Event.streamResp _ _ s) => some s
    | _ => none

/-- Contents of the assistant messages inserted by a trace, in order. -/
def assistantInserts (t : List Act) : List String :=
  t.filterMap fun a =>
    match a with
    | Act.insertMessage _ Role.assistant s => some s
    | _ => none

/-- function_call payloads of the chat.stream.done events of a trace, in
order. -/
def doneEvents (t : List Act) : List (Option (String × String)) :=
  t.filterMap fun a =>
    match a with
    | Act.send (Event.streamDone _ _ fn) => some fn
    | _ => none

/-- Titles written to storage by a trace, in order. -/
def setTitles (t : List Act) : List String :=
  t.filterMap fun a =>
    match a with
    | Act.setTitle _ s => some s
    | _ => none

/-- Titles carried by conversation.title.update events of a trace. -/
def titleEvents (t : List Act) : List String :=
  t.filterMap fun a =>
    match a with
    | Act.send (Event.titleUpd _ _ s) => some s
    | _ => none

/-- Messages carried by error events of a trace. -/
def errEvents (t : List Act) : List String :=
  t.filterMap fun a =>
    match a with
    | Act.send (Event.errMsg _ s) => some s
    | _ => none

/-- Concatenation of a list of strings, in order. -/
def concatAll (l : List String) : String :=
  l.foldl (fun a b => a ++ b) noStr

/-- Non-empty text fragments of a delta sequence, in order. -/
def deltaTexts (ds : List Delta) : List String :=
  (ds.filter fun d => d.content ≠ "").map Delta.content

/-- The accumulator state finalized at stream end of a create-generation. -/
def finalizedToolCalls (deltas : List Delta) (cancelAt : Option Nat) :
    List (Nat × ToolCallEntry) :=
  loopMap [] (consumedOf deltas cancelAt)

theorem strFoldl_shift (l : List String) : ∀ a b : String,
    l.foldl (fun x y => x ++ y) (a ++ b) = a ++ l.foldl (fun x y => x ++ y) b := by
  induction l with
  | nil => intro a b; simp
  | cons h t ih =>
    intro a b
    simp only [List.foldl_cons]
    rw [String.append_assoc]
    exact ih a (b ++ h)

theorem concatAll_cons (x : String) (l : List String) :
    concatAll (x :: l) = x ++ concatAll l := by
  have h := strFoldl_shift l x ""
  rw [String.append_empty] at h
  unfold concatAll
  simp only [List.foldl_cons]
  have h1 : noStr ++ x = x := String.empty_append x
  rw [h1]
  exact h

theorem loopResp_concat (ds : List Delta) : ∀ r : String,
    loopResp r ds = r ++ concatAll (deltaTexts ds) := by
  induction ds with
  | nil =>
    intro r
    exact (String.append_empty r).symm
  | cons d tl ih =>
    intro r
    have h1 : loopResp r (d :: tl) = loopResp (contentStep r d) tl := rfl
    rw [h1, ih]
    by_cases hc : d.content ≠ ""
    · have h2 : deltaTexts (d :: tl) = d.content :: deltaTexts tl := by
        simp [deltaTexts, hc]
      rw [h2, concatAll_cons]
      simp [contentStep, hc, String.append_assoc]
    · have h2 : deltaTexts (d :: tl) = deltaTexts tl := by
        simp [deltaTexts, hc]
      rw [h2]
      simp [contentStep, hc]

/-- Shape of the actions emitted inside the stream loop: a
chat.stream.response event or an interim chat.stream.done event with a
non-null function_call. -/
def isStreamSend (e c : String) (a : Act) : Prop :=
  (∃ s, a = Act.send (Event.streamResp e c s)) ∨
    ∃ n ar, a = Act.send (Event.streamDone e c (some (n, ar)))

theorem deltaActs_mem (e c : String) (m : List (Nat × ToolCallEntry)) (d : Delta) :
    ∀ a ∈ deltaActs e c m d, isStreamSend e c a := by
  intro a ha
  unfold deltaActs at ha
  rcases List.mem_append.1 ha with h1 | h2
  · split at h1
    · exact Or.inl ⟨d.content, List.mem_singleton.1 h1⟩
    · exact absurd h1 (List.not_mem_nil a)
  · split at h2
    · exact absurd h2 (List.not_mem_nil a)
    · rename_i fst en tl heq
      split at h2
      · exact Or.inr ⟨en.name, en.args, List.mem_singleton.1 h2⟩
      · exact absurd h2 (List.not_mem_nil a)

theorem loopActs_mem (e c : String) (ds : List Delta) :
    ∀ m, ∀ a ∈ loopActs e c m ds, isStreamSend e c a := by
  induction ds with
  | nil => intro m a ha; exact absurd ha (List.not_mem_nil a)
  | cons d tl ih =>
    intro m a ha
    rcases List.mem_append.1 ha with h1 | h2
    · exact deltaActs_mem e c m d a h1
    · exact ih (mergeDelta m d) a h2

theorem respTexts_append (s t : List Act) :
    respTexts (s ++ t) = respTexts s ++ respTexts t := by
  unfold respTexts
  exact List.filterMap_append s t _

theorem assistantInserts_append (s t : List Act) :
    assistantInserts (s ++ t) = assistantInserts s ++ assistantInserts t := by
  unfold assistantInserts
  exact List.filterMap_append s t _

theorem doneEvents_append (s t : List Act) :
    doneEvents (s ++ t) = doneEvents s ++ doneEvents t := by
  unfold doneEvents
  exact List.filterMap_append s t _

theorem setTitles_append (s t : List Act) :
    setTitles (s ++ t) = setTitles s ++ setTitles t := by
  unfold setTitles
  exact List.filterMap_append s t _

theorem titleEvents_append (s t : List Act) :
    titleEvents (s ++ t) = titleEvents s ++ titleEvents t := by
  unfold titleEvents
  exact List.filterMap_append s t _

theorem errEvents_append (s t : List Act) :
    errEvents (s ++ t) = errEvents s ++ errEvents t := by
  unfold errEvents
  exact List.filterMap_append s t _

theorem streamSend_facts (e c : String) (a : Act) (h : isStreamSend e c a) :
    isDoneNull a = false ∧ isAssistantInsert a = false ∧ isMutation a = false ∧
      a ≠ Act.callTitleProvider ∧ a ≠ Act.callProvider := by
  rcases h with ⟨s, rfl⟩ | ⟨n, ar, rfl⟩ <;>
    simp [isDoneNull, isAssistantInsert, isMutation]

theorem loopActs_filter_doneNull (e c : String) (m : List (Nat × ToolCallEntry))
    (ds : List Delta) : (loopActs e c m ds).filter isDoneNull = [] := by
  rw [List.filter_eq_nil_iff]
  intro a ha
  have h := (streamSend_facts e c a (loopActs_mem e c ds m a ha)).1
  simp [h]

theorem loopActs_filter_mutation (e c : String) (m : List (Nat × ToolCallEntry))
    (ds : List Delta) : (loopActs e c m ds).filter isMutation = [] := by
  rw [List.filter_eq_nil_iff]
  intro a ha
  have h := (streamSend_facts e c a (loopActs_mem e c ds m a ha)).2.2.1
  simp [h]

theorem loopActs_assistantInserts (e c : String) (m : List (Nat × ToolCallEntry))
    (ds : List Delta) : assistantInserts (loopActs e c m ds) = [] := by
  rw [assistantInserts, List.filterMap_eq_nil_iff]
  intro a ha
  rcases loopActs_mem e c ds m a ha with ⟨s, rfl⟩ | ⟨n, ar, rfl⟩ <;> rfl

theorem loopActs_setTitles (e c : String) (m : List (Nat × ToolCallEntry))
    (ds : List Delta) : setTitles (loopActs e c m ds) = [] := by
  rw [setTitles, List.filterMap_eq_nil_iff]
  intro a ha
  rcases loopActs_mem e c ds m a ha with ⟨s, rfl⟩ | ⟨n, ar, rfl⟩ <;> rfl

theorem loopActs_titleEvents (e c : String) (m : List (Nat × ToolCallEntry))
    (ds : List Delta) : titleEvents (loopActs e c m ds) = [] := by
  rw [titleEvents, List.filterMap_eq_nil_iff]
  intro a ha
  rcases loopActs_mem e c ds m a ha with ⟨s, rfl⟩ | ⟨n, ar, rfl⟩ <;> rfl

theorem loopActs_errEvents (e c : String) (m : List (Nat × ToolCallEntry))
    (ds : List Delta) : errEvents (loopActs e c m ds) = [] := by
  rw [errEvents, List.filterMap_eq_nil_iff]
  intro a ha
  rcases loopActs_mem e c ds m a ha with ⟨s, rfl⟩ | ⟨n, ar, rfl⟩ <;> rfl

theorem loopActs_no_callTitle (e c : String) (m : List (Nat × ToolCallEntry))
    (ds : List Delta) : Act.callTitleProvider ∉ loopActs e c m ds := by
  intro ha
  exact (streamSend_facts e c _ (loopActs_mem e c ds m _ ha)).2.2.2.1 rfl

theorem doneEvents_loopActs_ne_none (e c : String) (m : List (Nat × ToolCallEntry))
    (ds : List Delta) : ∀ x ∈ doneEvents (loopActs e c m ds), x ≠ none := by
  intro x hx
  rw [doneEvents, List.mem_filterMap] at hx
  rcases hx with ⟨a, ha, hax⟩
  rcases loopActs_mem e c ds m a ha with ⟨s, rfl⟩ | ⟨n, ar, rfl⟩
  · exact absurd hax (by simp)
  · have h2 : (some (some (n, ar)) : Option (Option (String × String))) = some x := hax
    rw [(Option.some_inj.1 h2).symm]
    simp

theorem respTexts_deltaActs (e c : String) (m : List (Nat × ToolCallEntry)) (d : Delta) :
    respTexts (deltaActs e c m d) = if d.content ≠ "" then [d.content] else [] := by
  rcases hm : mergeDelta m d with _ | ⟨⟨j, en⟩, tl⟩
  · by_cases hc : d.content ≠ "" <;> simp [respTexts, deltaActs, hm, hc]
  · by_cases hc : d.content ≠ "" <;> by_cases hn : en.name ≠ "" <;>
      simp [respTexts, deltaActs, hm, hc, hn]

theorem respTexts_loopActs (e c : String) (ds : List Delta) :
    ∀ m, respTexts (loopActs e c m ds) = deltaTexts ds := by
  induction ds with
  | nil => intro m; rfl
  | cons d tl ih =>
    intro m
    simp only [loopActs]
    rw [respTexts_append, respTexts_deltaActs, ih]
    by_cases hc : d.content ≠ "" <;> simp [deltaTexts, hc]

theorem titleTail_facts (msg : CreateMsg) (cv : Conversation) (tout : TitleOutcome) :
    doneEvents (titleTail msg cv tout) = [] ∧
      assistantInserts (titleTail msg cv tout) = [] ∧
      respTexts (titleTail msg cv tout) = [] ∧
      errEvents (titleTail msg cv tout) = [] ∧
      (titleTail msg cv tout).filter isDoneNull = [] := by
  rcases cv with ⟨tOpt⟩
  rcases tOpt with _ | t0
  · rcases tout with _ | t
    · simp [titleTail, doneEvents, assistantInserts, respTexts, errEvents, isDoneNull]
    · by_cases ht : t ≠ "" <;>
        simp [titleTail, ht, doneEvents, assistantInserts, respTexts, errEvents, isDoneNull]
  · simp [titleTail, doneEvents, assistantInserts, respTexts, errEvents, isDoneNull]

theorem callTitle_titleTail (msg : CreateMsg) (cv : Conversation) (tout : TitleOutcome) :
    Act.callTitleProvider ∈ titleTail msg cv tout ↔ cv.title = none := by
  rcases cv with ⟨tOpt⟩
  rcases tOpt with _ | t0
  · rcases tout with _ | t
    · simp [titleTail]
    · by_cases ht : t ≠ "" <;> simp [titleTail, ht]
  · simp [titleTail]

theorem titleTail_fail (msg : CreateMsg) (cv : Conversation) (tout : TitleOutcome)
    (h : tout = TitleOutcome.fault ∨ tout = TitleOutcome.parsed "") :
    setTitles (titleTail msg cv tout) = [] ∧ titleEvents (titleTail msg cv tout) = [] := by
  rcases cv with ⟨tOpt⟩
  rcases h with rfl | rfl <;> rcases tOpt with _ | t0 <;>
    simp [titleTail, setTitles, titleEvents]

/-- Concrete create command used in the C1 counterexample. -/
def c1msg : CreateMsg := ⟨"e1", "c1", "hi"⟩

/-- Concrete conversation (title already set) used in the C1 counterexample. -/
def c1conv : Conversation := ⟨some ("t")⟩

/-- Claim C1, as stated, is false on the code: in the create-generation flow
the new assistant message is claimed to be persisted before the
chat.stream.done event is emitted, but handleChat sends the done frame first
and only then inserts the assistant row.  Concretely, for a create command on
a found conversation with an empty provider stream and a natural end, the
trace contains a chat.stream.done event and an assistant insert, yet the
prefix of the trace strictly before the first chat.stream.done event contains
no assistant insert. -/
theorem c1_counterexample :
    ((handleChat c1msg (some c1conv) [] none TitleOutcome.fault).takeWhile
        fun a => !(isDoneNull a)).all (fun a => !(isAssistantInsert a)) = true
    ∧ (handleChat c1msg (some c1conv) [] none TitleOutcome.fault).any isDoneNull = true
    ∧ (handleChat c1msg (some c1conv) [] none TitleOutcome.fault).any isAssistantInsert
        = true := by
  decide

/-- Claim C1 (amended): in the create-generation flow, for every stream end
(natural or canceled), the turn-complete (chat.stream.done, function_call
null) event is emitted first and the new assistant message is persisted
immediately afterwards, followed by the updated_at bump; no turn-complete
event or assistant insert occurs earlier in the turn. -/
theorem c1_amended (msg : CreateMsg) (c : Conversation) (deltas : List Delta)
    (cancelAt : Option Nat) (titleOut : TitleOutcome) :
    ∃ p s,
      handleChat msg (some c) deltas cancelAt titleOut =
        p ++ Act.send (Event.streamDone msg.eventId msg.conversationId none) ::
          Act.insertMessage msg.conversationId Role.assistant
            (loopResp noStr (consumedOf deltas cancelAt)) ::
          Act.touchConversation msg.conversationId :: s
      ∧ ∀ a ∈ p, isDoneNull a = false ∧ isAssistantInsert a = false := by
  refine ⟨[Act.insertMessage msg.conversationId Role.user msg.content, Act.callProvider] ++
      loopActs msg.eventId msg.conversationId [] (consumedOf deltas cancelAt),
    titleTail msg c titleOut, ?_, ?_⟩
  · rw [handleChat_some]
    simp [List.append_assoc]
  · intro a ha
    rcases List.mem_append.1 ha with h1 | h2
    · rcases List.mem_cons.1 h1 with rfl | h1b
      · exact ⟨rfl, rfl⟩
      · rcases List.mem_singleton.1 h1b with rfl
        exact ⟨rfl, rfl⟩
    · have h := streamSend_facts _ _ a (loopActs_mem _ _ _ _ a h2)
      exact ⟨h.1, h.2.1⟩

/-- Witness for C1 (amended) at the concrete C1 input. -/
theorem c1_amended_witness :
    ∃ p s,
      handleChat c1msg (some c1conv) [] none TitleOutcome.fault =
        p ++ Act.send (Event.streamDone c1msg.eventId c1msg.conversationId none) ::
          Act.insertMessage c1msg.conversationId Role.assistant
            (loopResp noStr (consumedOf [] none)) ::
          Act.touchConversation c1msg.conversationId :: s
      ∧ ∀ a ∈ p, isDoneNull a = false ∧ isAssistantInsert a = false :=
  c1_amended c1msg c1conv [] none TitleOutcome.fault

/-- Concrete session state used in the C2 counterexample: token 0 current,
nothing aborted yet. -/
def c2st : SessionState := ⟨0, 1, []⟩

/-- Claim C2, as stated, is false on the code: a new generation or
regeneration command replaces this.abortController with a fresh controller
without calling abort() on the previous one, so the prior in-flight provider
call is never canceled by the new command.  Concretely, from a state with
current token 0 and nothing aborted, handling a create (or regenerate)
command allocates a new current token but leaves token 0 un-aborted. -/
theorem c2_counterexample :
    (tokenStep c2st (ClientMsg.create ("e") ("c") ("x") ("m"))).current ≠ c2st.current
    ∧ c2st.current ∉ (tokenStep c2st (ClientMsg.create ("e") ("c") ("x") ("m"))).aborted
    ∧ c2st.current ∉ (tokenStep c2st (ClientMsg.regen ("e") ("c") ("m"))).aborted := by
  decide

/-- Claim C2 (amended): when a new generation or regeneration command
arrives, the session allocates a fresh cancellation token WITHOUT aborting
the previous one — the set of aborted tokens is unchanged and the current
token becomes the freshly allocated one; only an explicit chat.stream.cancel
command aborts the current token. -/
theorem c2_amended (st : SessionState) (e c x mo : String) :
    (tokenStep st (ClientMsg.create e c x mo)).aborted = st.aborted
    ∧ (tokenStep st (ClientMsg.create e c x mo)).current = st.nextId
    ∧ (tokenStep st (ClientMsg.regen e c mo)).aborted = st.aborted
    ∧ (tokenStep st (ClientMsg.regen e c mo)).current = st.nextId
    ∧ (tokenStep st (ClientMsg.cancel e c)).aborted = st.current :: st.aborted :=
  ⟨rfl, rfl, rfl, rfl, rfl⟩

/-- Claim C10: a chat.stream.cancel command aborts the channel's single
current cancellation token regardless of the conversationId it carries: the
handler's effect is the same for any two conversationIds, it aborts exactly
the current token, and the current token is left in place. -/
theorem c10_cancel_ignores_conversation (st : SessionState) (e c1 c2 : String) :
    tokenStep st (ClientMsg.cancel e c1) = tokenStep st (ClientMsg.cancel e c2)
    ∧ (tokenStep st (ClientMsg.cancel e c1)).aborted = st.current :: st.aborted
    ∧ (tokenStep st (ClientMsg.cancel e c1)).current = st.current :=
  ⟨rfl, rfl, rfl⟩

theorem loopResp_noStr (ds : List Delta) :
    loopResp noStr ds = concatAll (deltaTexts ds) := by
  rw [loopResp_concat]
  exact String.empty_append _

theorem handleChat_respTexts (msg : CreateMsg) (c : Conversation) (deltas : List Delta)
    (cancelAt : Option Nat) (titleOut : TitleOutcome) :
    respTexts (handleChat msg (some c) deltas cancelAt titleOut)
      = deltaTexts (consumedOf deltas cancelAt) := by
  rw [handleChat_some, respTexts_append, respTexts_append, respTexts_append,
    respTexts_loopActs, (titleTail_facts msg c titleOut).2.2.1]
  simp [respTexts]

theorem handleChat_assistantInserts (msg : CreateMsg) (c : Conversation)
    (deltas : List Delta) (cancelAt : Option Nat) (titleOut : TitleOutcome) :
    assistantInserts (handleChat msg (some c) deltas cancelAt titleOut)
      = [loopResp noStr (consumedOf deltas cancelAt)] := by
  rw [handleChat_some, assistantInserts_append, assistantInserts_append,
    assistantInserts_append, loopActs_assistantInserts, (titleTail_facts msg c titleOut).2.1]
  simp [assistantInserts]

theorem handleChat_doneNull_count (msg : CreateMsg) (c : Conversation)
    (deltas : List Delta) (cancelAt : Option Nat) (titleOut : TitleOutcome) :
    ((handleChat msg (some c) deltas cancelAt titleOut).filter isDoneNull).length = 1 := by
  rw [handleChat_some, List.filter_append, List.filter_append, List.filter_append,
    loopActs_filter_doneNull, (titleTail_facts msg c titleOut).2.2.2.2]
  simp [isDoneNull]

theorem handleChat_doneEvents_last (msg : CreateMsg) (c : Conversation)
    (deltas : List Delta) (cancelAt : Option Nat) (titleOut : TitleOutcome) :
    (doneEvents (handleChat msg (some c) deltas cancelAt titleOut)).getLast?
      = some none := by
  rw [handleChat_some, doneEvents_append, doneEvents_append, doneEvents_append,
    (titleTail_facts msg c titleOut).1]
  have h1 : doneEvents [Act.insertMessage msg.conversationId Role.user msg.content,
      Act.callProvider] = [] := rfl
  have h2 : doneEvents [Act.send (Event.streamDone msg.eventId msg.conversationId none),
      Act.insertMessage msg.conversationId Role.assistant
        (loopResp noStr (consumedOf deltas cancelAt)),
      Act.touchConversation msg.conversationId] = [none] := rfl
  rw [h1, h2, List.append_nil, List.nil_append]
  exact List.getLast?_concat _

theorem handleChat_errEvents (msg : CreateMsg) (c : Conversation) (deltas : List Delta)
    (cancelAt : Option Nat) (titleOut : TitleOutcome) :
    errEvents (handleChat msg (some c) deltas cancelAt titleOut) = [] := by
  rw [handleChat_some, errEvents_append, errEvents_append, errEvents_append,
    loopActs_errEvents, (titleTail_facts msg c titleOut).2.2.2.1]
  simp [errEvents]

/-- Claim C8: for every create-generation (any ending, any title outcome),
the sequence of text fragments sent as chat.stream.response events equals,
in order, the non-empty text fragments of the consumed deltas, and exactly
one assistant message is persisted, whose content is the concatenation of
exactly those emitted fragments — no fragment dropped, duplicated or
reordered between the channel and persistence. -/
theorem c8_text_concat (msg : CreateMsg) (c : Conversation) (deltas : List Delta)
    (cancelAt : Option Nat) (titleOut : TitleOutcome) :
    respTexts (handleChat msg (some c) deltas cancelAt titleOut)
        = deltaTexts (consumedOf deltas cancelAt)
    ∧ assistantInserts (handleChat msg (some c) deltas cancelAt titleOut)
        = [concatAll (respTexts (handleChat msg (some c) deltas cancelAt titleOut))] := by
  refine ⟨handleChat_respTexts msg c deltas cancelAt titleOut, ?_⟩
  rw [handleChat_respTexts, handleChat_assistantInserts, loopResp_noStr]

/-- Claim C5: for every create-generation that ends by cancellation after k
deltas, exactly one new assistant message is persisted, whose content is the
text accumulated up to the cancellation point (possibly empty), and exactly
one turn-complete event (chat.stream.done with null function_call) is
emitted.  Interim chat.stream.done frames carrying a tool-call action (the
spec's in-progress notifications) are not turn-complete events and are
counted separately. -/
theorem c5_canceled_create (msg : CreateMsg) (c : Conversation) (deltas : List Delta)
    (k : Nat) (titleOut : TitleOutcome) :
    assistantInserts (handleChat msg (some c) deltas (some k) titleOut)
        = [concatAll (deltaTexts (deltas.take k))]
    ∧ ((handleChat msg (some c) deltas (some k) titleOut).filter isDoneNull).length
        = 1
    ∧ (doneEvents (handleChat msg (some c) deltas (some k) titleOut)).getLast?
        = some none := by
  refine ⟨?_, handleChat_doneNull_count msg c deltas (some k) titleOut,
    handleChat_doneEvents_last msg c deltas (some k) titleOut⟩
  rw [handleChat_assistantInserts, loopResp_noStr]
  rfl

/-- Claim C9: title derivation is attempted in the create flow iff the
conversation's title was unset (null) when read at the start of the turn;
when the attempt fails (provider fault / malformed output, or a parsed but
empty title), the stored title is not modified, no title-updated event is
sent, and no error event reaches the caller. -/
theorem c9_title_derivation (msg : CreateMsg) (c : Conversation) (deltas : List Delta)
    (cancelAt : Option Nat) (titleOut : TitleOutcome)
    (hfail : titleOut = TitleOutcome.fault ∨ titleOut = TitleOutcome.parsed "") :
    (Act.callTitleProvider ∈ handleChat msg (some c) deltas cancelAt titleOut
        ↔ c.title = none)
    ∧ setTitles (handleChat msg (some c) deltas cancelAt titleOut) = []
    ∧ titleEvents (handleChat msg (some c) deltas cancelAt titleOut) = []
    ∧ errEvents (handleChat msg (some c) deltas cancelAt titleOut) = [] := by
  refine ⟨?_, ?_, ?_, handleChat_errEvents msg c deltas cancelAt titleOut⟩
  · rw [handleChat_some]
    simp [List.mem_append,
      loopActs_no_callTitle msg.eventId msg.conversationId [] (consumedOf deltas cancelAt),
      callTitle_titleTail]
  · rw [handleChat_some, setTitles_append, setTitles_append, setTitles_append,
      loopActs_setTitles, (titleTail_fail msg c titleOut hfail).1]
    simp [setTitles]
  · rw [handleChat_some, titleEvents_append, titleEvents_append, titleEvents_append,
      loopActs_titleEvents, (titleTail_fail msg c titleOut hfail).2]
    simp [titleEvents]

/-- Witness for C9 at a concrete input: empty stream, natural end, title
unset, title sub-call fails. -/
theorem c9_title_derivation_witness :
    (Act.callTitleProvider ∈
        handleChat ⟨"e9", "c9", "hi"⟩ (some ⟨none⟩) [] none TitleOutcome.fault
      ↔ (⟨none⟩ : Conversation).title = none)
    ∧ setTitles (handleChat ⟨"e9", "c9", "hi"⟩ (some ⟨none⟩) [] none TitleOutcome.fault) = []
    ∧ titleEvents (handleChat ⟨"e9", "c9", "hi"⟩ (some ⟨none⟩) [] none TitleOutcome.fault) = []
    ∧ errEvents (handleChat ⟨"e9", "c9", "hi"⟩ (some ⟨none⟩) [] none TitleOutcome.fault) = [] :=
  c9_title_derivation ⟨"e9", "c9", "hi"⟩ ⟨none⟩ [] none TitleOutcome.fault (Or.inl rfl)

theorem regenStep_mem (e c : String) (ds : List Delta) :
    ∀ (r : String) (t : List Act),
      (∀ a ∈ t, a = Act.callProvider ∨ ∃ s, a = Act.send (Event.streamResp e c s)) →
      ∀ a ∈ (ds.foldl (regenStep e c) (r, t)).2,
        a = Act.callProvider ∨ ∃ s, a = Act.send (Event.streamResp e c s) := by
  induction ds with
  | nil => intro r t ht a ha; exact ht a ha
  | cons d tl ih =>
    intro r t ht a ha
    have h2 : ∀ a ∈ (regenStep e c (r, t) d).2,
        a = Act.callProvider ∨ ∃ s, a = Act.send (Event.streamResp e c s) := by
      intro b hb
      unfold regenStep at hb
      split at hb
      · rcases List.mem_append.1 hb with hh | hh
        · exact ht b hh
        · exact Or.inr ⟨d.content, List.mem_singleton.1 hh⟩
      · exact ht b hb
    exact ih (regenStep e c (r, t) d).1 (regenStep e c (r, t) d).2 h2 a ha

theorem handleRegenerate_canceled (msg : RegenMsg) (msgs : List StoredMessage)
    (deltas : List Delta) (k : Nat)
    (h : ¬ (msgs.length < 2 ∨
        ¬ ((msgs.getLast?).map StoredMessage.role = some Role.assistant))) :
    handleRegenerate msg msgs deltas (some k) =
      ((deltas.take k).foldl (regenStep msg.eventId msg.conversationId)
        (noStr, [Act.callProvider])).2 := by
  unfold handleRegenerate
  rw [if_neg h]
  rfl

/-- Claim C4: a regeneration that ends by cancellation performs zero storage
mutations (no insert, no content overwrite, no updated_at bump, no title
write) and emits zero chat.stream.done events, for every history and every
cancellation point.  (A rejected precondition also mutates nothing and emits
no done event, so the statement holds unconditionally.) -/
theorem c4_canceled_regenerate (msg : RegenMsg) (msgs : List StoredMessage)
    (deltas : List Delta) (k : Nat) :
    (handleRegenerate msg msgs deltas (some k)).filter isMutation = []
    ∧ (handleRegenerate msg msgs deltas (some k)).filter isDoneEvent = [] := by
  by_cases hpre : msgs.length < 2 ∨
      ¬ ((msgs.getLast?).map StoredMessage.role = some Role.assistant)
  · have heq : handleRegenerate msg msgs deltas (some k)
        = [Act.send (Event.errMsg msg.eventId cannotRegenText)] := by
      unfold handleRegenerate
      rw [if_pos hpre]
    rw [heq]
    constructor <;> simp [isMutation, isDoneEvent]
  · rw [handleRegenerate_canceled msg msgs deltas k hpre]
    have hmem := regenStep_mem msg.eventId msg.conversationId (deltas.take k) noStr
      [Act.callProvider] (by
        intro a ha
        exact Or.inl (List.mem_singleton.1 ha))
    constructor <;>
      · rw [List.filter_eq_nil_iff]
        intro a ha
        rcases hmem a ha with rfl | ⟨s, rfl⟩ <;> simp [isMutation, isDoneEvent]

/-- Claim C7: a regenerate command on a history with fewer than two messages,
or whose most recent message has role user, yields exactly the user-visible
error event, performs no storage mutation, and issues no provider call. -/
theorem c7_regenerate_reject (msg : RegenMsg) (msgs : List StoredMessage)
    (deltas : List Delta) (cancelAt : Option Nat)
    (h : msgs.length < 2 ∨ ∃ m, msgs.getLast? = some m ∧ m.role = Role.user) :
    handleRegenerate msg msgs deltas cancelAt
        = [Act.send (Event.errMsg msg.eventId cannotRegenText)]
    ∧ (handleRegenerate msg msgs deltas cancelAt).filter isMutation = []
    ∧ Act.callProvider ∉ handleRegenerate msg msgs deltas cancelAt := by
  have hcond : msgs.length < 2 ∨
      ¬ ((msgs.getLast?).map StoredMessage.role = some Role.assistant) := by
    rcases h with h | ⟨m, hm, hr⟩
    · exact Or.inl h
    · right
      rw [hm]
      simp [hr]
  have heq : handleRegenerate msg msgs deltas cancelAt
      = [Act.send (Event.errMsg msg.eventId cannotRegenText)] := by
    unfold handleRegenerate
    rw [if_pos hcond]
  refine ⟨heq, ?_, ?_⟩
  · rw [heq]
    simp [isMutation]
  · rw [heq]
    simp

/-- Witness for C7 at a concrete input: regenerate on an empty history. -/
theorem c7_regenerate_reject_witness :
    handleRegenerate ⟨"e7", "c7"⟩ [] [] none
        = [Act.send (Event.errMsg ("e7") cannotRegenText)]
    ∧ (handleRegenerate ⟨"e7", "c7"⟩ [] [] none).filter isMutation = []
    ∧ Act.callProvider ∉ handleRegenerate ⟨"e7", "c7"⟩ [] [] none :=
  c7_regenerate_reject ⟨"e7", "c7"⟩ [] [] none (Or.inl (by decide))

theorem loopActs_append (e c : String) (ds1 : List Delta) : ∀ (m : List (Nat × ToolCallEntry))
    (ds2 : List Delta),
    loopActs e c m (ds1 ++ ds2) = loopActs e c m ds1 ++ loopActs e c (loopMap m ds1) ds2 := by
  induction ds1 with
  | nil => intro m ds2; rfl
  | cons d tl ih =>
    intro m ds2
    simp only [List.cons_append, loopActs, List.append_eq]
    rw [ih (mergeDelta m d) ds2]
    simp [loopMap, List.append_assoc]

theorem loopActs_final_done_gen (e c : String) (ds : List Delta)
    (m : List (Nat × ToolCallEntry)) (j : Nat) (en : ToolCallEntry)
    (hds : ds ≠ []) (hhead : (loopMap m ds).head? = some (j, en)) (hname : en.name ≠ "") :
    Act.send (Event.streamDone e c (some (en.name, en.args))) ∈ loopActs e c m ds := by
  rcases List.eq_nil_or_concat' ds with rfl | ⟨ds1, d, rfl⟩
  · exact absurd rfl hds
  · rw [loopActs_append]
    have hM : loopMap m (ds1 ++ [d]) = mergeDelta (loopMap m ds1) d := by
      simp [loopMap, List.foldl_append]
    rw [hM] at hhead
    rcases hM2 : mergeDelta (loopMap m ds1) d with _ | ⟨p, tl⟩
    · rw [hM2] at hhead
      simp at hhead
    · have hp : p = (j, en) := by
        rw [hM2] at hhead
        simpa using hhead
      subst hp
      refine List.mem_append.2 (Or.inr ?_)
      simp only [loopActs, List.append_nil]
      unfold deltaActs
      refine List.mem_append.2 (Or.inr ?_)
      simp only [hM2]
      rw [if_pos hname]
      exact List.mem_singleton.2 rfl

/-- Concrete create command used in the C3 counterexample. -/
def c3msg : CreateMsg := ⟨"e3", "c3", "q"⟩

/-- Concrete conversation (title already set) used in the C3 counterexample. -/
def c3conv : Conversation := ⟨some ("t3")⟩

/-- Concrete stream for the C3 counterexample: a single delta carrying one
complete tool-call fragment at index 0 named lookup. -/
def c3deltas : List Delta := [⟨"", [⟨0, "id0", "function", "lookup", "x1"⟩]⟩]

/-- Claim C3, as stated, is false on the code: at stream end of a
create-generation whose accumulator finalized a named tool-call entry, the
final (stream-end) chat.stream.done event still carries function_call null —
handleChat sends the action-bearing done frames only per-delta during
streaming and unconditionally sends a null-action done frame after the loop.
Concretely, a run whose stream delivers one finalized tool call named lookup
ends with a last done event equal to none. -/
theorem c3_counterexample :
    finalizedToolCalls c3deltas none ≠ []
    ∧ ((finalizedToolCalls c3deltas none).head?.map fun p => p.2.name) = some ("lookup")
    ∧ (doneEvents (handleChat c3msg (some c3conv) c3deltas none TitleOutcome.fault)).getLast?
        = some none := by
  decide

/-- Claim C3 (amended): the stream-end completion event of a
create-generation always carries no action (function_call null); when the
finalized accumulator's first entry has a non-empty name, that entry's name
and full accumulated argument text are instead carried by an interim
chat.stream.done event emitted during streaming. -/
theorem c3_amended (msg : CreateMsg) (c : Conversation) (deltas : List Delta)
    (cancelAt : Option Nat) (titleOut : TitleOutcome) (j : Nat) (en : ToolCallEntry)
    (hhead : (finalizedToolCalls deltas cancelAt).head? = some (j, en))
    (hname : en.name ≠ "") :
    (doneEvents (handleChat msg (some c) deltas cancelAt titleOut)).getLast? = some none
    ∧ Act.send (Event.streamDone msg.eventId msg.conversationId (some (en.name, en.args)))
        ∈ handleChat msg (some c) deltas cancelAt titleOut := by
  refine ⟨handleChat_doneEvents_last msg c deltas cancelAt titleOut, ?_⟩
  have hds : consumedOf deltas cancelAt ≠ [] := by
    intro h0
    rw [finalizedToolCalls, h0] at hhead
    simp [loopMap] at hhead
  have hmem := loopActs_final_done_gen msg.eventId msg.conversationId
    (consumedOf deltas cancelAt) [] j en hds hhead hname
  rw [handleChat_some]
  simp [List.mem_append, hmem]

/-- Witness for C3 (amended) at the concrete C3 input. -/
theorem c3_amended_witness :
    (doneEvents (handleChat c3msg (some c3conv) c3deltas none TitleOutcome.fault)).getLast?
        = some none
    ∧ Act.send (Event.streamDone c3msg.eventId c3msg.conversationId
          (some (("lookup"), ("x1"))))
        ∈ handleChat c3msg (some c3conv) c3deltas none TitleOutcome.fault :=
  c3_amended c3msg c3conv c3deltas none TitleOutcome.fault 0
    ⟨("id0"), ("function"), ("lookup"), ("x1")⟩ (by decide) (by decide)

/-- The accumulator built by merging a flat sequence of tool-call fragments
(in arrival order) into an initially empty map. -/
def mergeAll (fs : List ToolCallFrag) : List (Nat × ToolCallEntry) :=
  fs.foldl mergeToolCall []

/-- Last non-empty value of a list of field values, with a default for the
case where no non-empty value was ever supplied. -/
def lastFill (dflt : String) (vs : List String) : String :=
  vs.foldl (fun a v => if v ≠ "" then v else a) dflt

/-- Per-index specification step: effect of one fragment on the entry tracked
for index i. -/
def specStep (i : Nat) (acc : Option ToolCallEntry) (f : ToolCallFrag) :
    Option ToolCallEntry :=
  if f.index = i then
    match acc with
    | none => some { id := f.id, ctype := f.ctype, name := f.name, args := f.args }
    | some e => some (updateEntry e f)
  else acc

theorem lookupIdx_append_of_none (m1 m2 : List (Nat × ToolCallEntry)) (i : Nat)
    (h : lookupIdx i m1 = none) : lookupIdx i (m1 ++ m2) = lookupIdx i m2 := by
  induction m1 with
  | nil => rfl
  | cons p tl ih =>
    rcases p with ⟨k, e⟩
    by_cases hk : k = i
    · rw [lookupIdx, if_pos hk] at h
      exact absurd h (by simp)
    · rw [lookupIdx, if_neg hk] at h
      rw [List.cons_append, lookupIdx, if_neg hk]
      exact ih h

theorem lookupIdx_append_of_some (m1 m2 : List (Nat × ToolCallEntry)) (i : Nat)
    (e : ToolCallEntry) (h : lookupIdx i m1 = some e) :
    lookupIdx i (m1 ++ m2) = some e := by
  induction m1 with
  | nil => exact absurd h (by simp [lookupIdx])
  | cons p tl ih =>
    rcases p with ⟨k, e2⟩
    by_cases hk : k = i
    · rw [lookupIdx, if_pos hk] at h
      rw [List.cons_append, lookupIdx, if_pos hk]
      exact h
    · rw [lookupIdx, if_neg hk] at h
      rw [List.cons_append, lookupIdx, if_neg hk]
      exact ih h

theorem lookupIdx_map_update (m : List (Nat × ToolCallEntry)) (j : Nat)
    (tc : ToolCallFrag) (i : Nat) :
    lookupIdx i (m.map fun p => if p.1 = j then (p.1, updateEntry p.2 tc) else p) =
      if i = j then (lookupIdx i m).map (fun e => updateEntry e tc)
      else lookupIdx i m := by
  induction m with
  | nil => by_cases h : i = j <;> simp [lookupIdx, h]
  | cons p tl ih =>
    rcases p with ⟨k, e⟩
    simp only [List.map_cons]
    by_cases hkj : k = j
    · rw [if_pos hkj]
      subst hkj
      by_cases hki : k = i
      · subst hki
        simp [lookupIdx]
      · have hik : ¬ i = k := fun hh => hki hh.symm
        simp [lookupIdx, hki, hik, ih]
    · rw [if_neg hkj]
      by_cases hki : k = i
      · subst hki
        simp [lookupIdx, hkj]
      · simp [lookupIdx, hki, ih]

theorem lookup_mergeToolCall (m : List (Nat × ToolCallEntry)) (tc : ToolCallFrag)
    (i : Nat) : lookupIdx i (mergeToolCall m tc) = specStep i (lookupIdx i m) tc := by
  unfold mergeToolCall
  rcases hex : lookupIdx tc.index m with _ | e0
  · by_cases hidx : tc.index = i
    · subst hidx
      rw [lookupIdx_append_of_none m _ tc.index hex]
      simp [lookupIdx, specStep, hex]
    · rcases h2 : lookupIdx i m with _ | e1
      · rw [lookupIdx_append_of_none m _ i h2]
        simp [lookupIdx, specStep, hidx, h2]
      · rw [lookupIdx_append_of_some m _ i e1 h2]
        simp [specStep, hidx, h2]
  · rw [lookupIdx_map_update]
    by_cases hidx : i = tc.index
    · rw [if_pos hidx]
      have hidx2 : tc.index = i := hidx.symm
      subst hidx2
      rw [hex]
      simp [specStep]
    · rw [if_neg hidx]
      have hidx2 : ¬ (tc.index = i) := fun hh => hidx hh.symm
      simp [specStep, hidx2]

theorem lookup_foldl_merge (fs : List ToolCallFrag) (i : Nat) :
    ∀ m, lookupIdx i (fs.foldl mergeToolCall m) = fs.foldl (specStep i) (lookupIdx i m) := by
  induction fs with
  | nil => intro m; rfl
  | cons f tl ih =>
    intro m
    simp only [List.foldl_cons]
    rw [ih, lookup_mergeToolCall]

theorem specFold_filter (i : Nat) (fs : List ToolCallFrag) :
    ∀ acc, fs.foldl (specStep i) acc
      = (fs.filter fun f => f.index = i).foldl (specStep i) acc := by
  induction fs with
  | nil => intro acc; rfl
  | cons f tl ih =>
    intro acc
    by_cases hf : f.index = i
    · rw [List.filter_cons_of_pos (by simp [hf])]
      simp only [List.foldl_cons]
      rw [ih]
    · rw [List.filter_cons_of_neg (by simp [hf])]
      simp only [List.foldl_cons]
      have hstep : specStep i acc f = acc := by simp [specStep, hf]
      rw [hstep, ih]

theorem specFold_some (i : Nat) : ∀ (gs : List ToolCallFrag),
    (∀ f ∈ gs, f.index = i) → ∀ e0 : ToolCallEntry,
    gs.foldl (specStep i) (some e0) =
      some { id := lastFill e0.id (gs.map ToolCallFrag.id)
             ctype := lastFill e0.ctype (gs.map ToolCallFrag.ctype)
             name := lastFill e0.name (gs.map ToolCallFrag.name)
             args := e0.args ++ concatAll (gs.map ToolCallFrag.args) } := by
  intro gs
  induction gs with
  | nil =>
    intro _ e0
    rcases e0 with ⟨eid, ect, enm, ear⟩
    have h : ear ++ concatAll ([] : List String) = ear := String.append_empty ear
    simp [lastFill, h]
  | cons g tl ih =>
    intro hall e0
    have hg : g.index = i := hall g (List.mem_cons_self g tl)
    have hall2 : ∀ f ∈ tl, f.index = i := fun f hf => hall f (List.mem_cons_of_mem g hf)
    simp only [List.foldl_cons]
    have hstep : specStep i (some e0) g = some (updateEntry e0 g) := by
      simp [specStep, hg]
    rw [hstep, ih hall2 (updateEntry e0 g)]
    simp only [List.map_cons, ToolCallEntry.mk.injEq, Option.some_inj]
    refine ⟨rfl, rfl, rfl, ?_⟩
    show (updateEntry e0 g).args ++ concatAll (tl.map ToolCallFrag.args)
      = e0.args ++ concatAll (g.args :: tl.map ToolCallFrag.args)
    rw [concatAll_cons]
    by_cases hga : g.args ≠ ""
    · simp only [updateEntry, if_pos hga]
      rw [String.append_assoc]
    · have hga2 : g.args = "" := by
        by_contra hc
        exact hga hc
      simp only [updateEntry, if_neg hga]
      rw [hga2, String.empty_append]

theorem lastFill_cons_self (v : String) (vs : List String) :
    lastFill v vs = lastFill noStr (v :: vs) := by
  show lastFill v vs = lastFill (if v ≠ "" then v else noStr) vs
  congr 1
  by_cases hn : v ≠ ""
  · rw [if_pos hn]
  · rw [if_neg hn]
    have h2 : v = "" := not_not.1 hn
    rw [h2]
    rfl

/-- Claim C6: for every fragment sequence merged into the accumulator
(possibly with interleaved indices), the entry finalized at index i has: an
arguments string equal to the exact concatenation, in arrival order, of all
argument fragments addressed to index i; and name/id/type fields equal to
the last non-empty value supplied for index i, defaulting to empty when no
non-empty value was ever supplied (entry creation seeds a missing field as
empty and later fragments never clear a previously set field). -/
theorem c6_accumulator (fs : List ToolCallFrag) (i : Nat)
    (h : (fs.filter fun f => f.index = i) ≠ []) :
    ∃ e, lookupIdx i (mergeAll fs) = some e
      ∧ e.args = concatAll ((fs.filter fun f => f.index = i).map ToolCallFrag.args)
      ∧ e.name = lastFill noStr ((fs.filter fun f => f.index = i).map ToolCallFrag.name)
      ∧ e.id = lastFill noStr ((fs.filter fun f => f.index = i).map ToolCallFrag.id)
      ∧ e.ctype = lastFill noStr ((fs.filter fun f => f.index = i).map ToolCallFrag.ctype) := by
  have h1 : lookupIdx i (mergeAll fs) = fs.foldl (specStep i) none := by
    rw [mergeAll, lookup_foldl_merge]
    rfl
  rw [h1, specFold_filter]
  obtain ⟨g, tl, hgtl⟩ : ∃ g tl, (fs.filter fun f => f.index = i) = g :: tl := by
    rcases hfs : fs.filter fun f => f.index = i with _ | ⟨g, tl⟩
    · exact absurd hfs h
    · exact ⟨g, tl, hfs⟩
  rw [hgtl]
  have hall : ∀ f ∈ g :: tl, f.index = i := by
    intro f hf
    have h2 : f ∈ fs.filter fun f2 => f2.index = i := by
      rw [hgtl]
      exact hf
    simp only [List.mem_filter, decide_eq_true_eq] at h2
    exact h2.2
  have hg : g.index = i := hall g (List.mem_cons_self g tl)
  simp only [List.foldl_cons]
  have hstep : specStep i none g = some ⟨g.id, g.ctype, g.name, g.args⟩ := by
    simp [specStep, hg]
  rw [hstep, specFold_some i tl (fun f hf => hall f (List.mem_cons_of_mem g hf))
    ⟨g.id, g.ctype, g.name, g.args⟩]
  refine ⟨_, rfl, ?_, ?_, ?_, ?_⟩
  · show g.args ++ concatAll (tl.map ToolCallFrag.args)
      = concatAll ((g :: tl).map ToolCallFrag.args)
    rw [List.map_cons, concatAll_cons]
  · show lastFill g.name (tl.map ToolCallFrag.name)
      = lastFill noStr ((g :: tl).map ToolCallFrag.name)
    rw [List.map_cons, lastFill_cons_self]
  · show lastFill g.id (tl.map ToolCallFrag.id)
      = lastFill noStr ((g :: tl).map ToolCallFrag.id)
    rw [List.map_cons, lastFill_cons_self]
  · show lastFill g.ctype (tl.map ToolCallFrag.ctype)
      = lastFill noStr ((g :: tl).map ToolCallFrag.ctype)
    rw [List.map_cons, lastFill_cons_self]

/-- Concrete fragment sequence for the C6 witness: two fragments at index 0,
the second supplying only additional argument text. -/
def c6frags : List ToolCallFrag :=
  [⟨0, ("ida"), ("function"), ("lookup"), ("x1")⟩, ⟨0, "", "", "", ("x2")⟩]

/-- Witness for C6 at a concrete fragment sequence. -/
theorem c6_accumulator_witness :
    ∃ e, lookupIdx 0 (mergeAll c6frags) = some e
      ∧ e.args = concatAll ((c6frags.filter fun f => f.index = 0).map ToolCallFrag.args)
      ∧ e.name = lastFill noStr ((c6frags.filter fun f => f.index = 0).map ToolCallFrag.name)
      ∧ e.id = lastFill noStr ((c6frags.filter fun f => f.index = 0).map ToolCallFrag.id)
      ∧ e.ctype = lastFill noStr ((c6frags.filter fun f => f.index = 0).map ToolCallFrag.ctype) :=
  c6_accumulator c6frags 0 (by decide)

end WorkersAI
